import Mathlib

/-!
Verification of the YOLO loss / target-matching subsystem of the
TensorFlowModels repository.  The Python sources under `yolo/losses/yolo_loss.py`,
`yolo/ops/nms_ops.py` and `yolo/tasks/yolo.py` are shallowly embedded below:
pure tensor arithmetic becomes rational (or real) arithmetic at a single
tensor position, IEEE special values become an explicit extended-value type,
and fallible code returns `Except`.  Framework primitives that live outside
this repository (`math_ops`, `box_ops`, the grid generator) are modelled from
the specification where noted.
-/

namespace YoloSpec

/-- Modelled from the spec: `math_ops.divide_no_nan` is not under the sources
provided; section 8 of the spec states that safe division returns 0 whenever
the denominator is 0, including 0/0. -/
def divide_no_nan (a b : ℚ) : ℚ :=
  if b = 0 then 0 else a / b

/-- Modelled from the spec: `math_ops.mul_no_nan` is not under the sources
provided; per the numeric-stability policy of spec section 4.4 the masked
multiplication returns 0 whenever the mask factor is 0, even when the other
factor is non-finite. -/
def mul_no_nan (a b : ℚ) : ℚ :=
  if a = 0 then 0 else a * b

/-- ReLU on rationals, the model of `tf.nn.relu`. -/
def relu (x : ℚ) : ℚ := max 0 x

/-- An IEEE-style scalar: a finite rational or one of the special values
NaN, plus infinity, minus infinity.  Used to model gradient tensors flowing
through the gradient-shaping hooks. -/
inductive FV where
  | nan : FV
  | pinf : FV
  | ninf : FV
  | fin : ℚ → FV
deriving DecidableEq

/-- Multiplication of an IEEE-style scalar by a finite scalar constant,
modelling `dy * normalizer` (`dy *= iou_normalizer` in the source).
Zero times an infinity is NaN, as in IEEE arithmetic. -/
def FV.smul (c : ℚ) : FV → FV
  | .nan => .nan
  | .pinf => if 0 < c then .pinf else if c < 0 then .ninf else .nan
  | .ninf => if 0 < c then .ninf else if c < 0 then .pinf else .nan
  | .fin q => .fin (q * c)

/-- Modelled from the spec: `math_ops.rm_nan_inf` is not under the sources
provided; spec section 4.5 describes it as sanitizing NaN or Inf entries
to 0 and leaving finite entries unchanged. -/
def rm_nan_inf : FV → FV
  | .fin q => .fin q
  | _ => .fin 0

/-- Model of `tf.clip_by_value` on an IEEE-style scalar with finite bounds:
finite values are clamped into the interval, infinities saturate at the
corresponding bound, NaN propagates. -/
def clip_by_value (x : FV) (lo hi : ℚ) : FV :=
  match x with
  | .fin q => .fin (min hi (max lo q))
  | .pinf => .fin hi
  | .ninf => .fin lo
  | .nan => .nan

/-- Forward value of the custom-gradient hook `box_gradient_trap`
(yolo_loss.py line 26): the identity on its tensor input. -/
def box_gradient_trap_forward (y : FV) : FV := y

/-- Backward pass of `box_gradient_trap` (yolo_loss.py lines 20-25): the
upstream gradient is scaled by `iou_normalizer`, sanitized, then clipped to
the interval from `-max_delta` to `max_delta`; the gradients reported for
the two scalar hyperparameters are the constants 0. -/
def box_gradient_trap_backward (iou_normalizer max_delta : ℚ) (dy : FV) :
    FV × ℚ × ℚ :=
  let dy1 := FV.smul iou_normalizer dy
  let dy2 := rm_nan_inf dy1
  let dy3 := clip_by_value dy2 (-max_delta) max_delta
  (dy3, 0, 0)

/-- C3: for every upstream gradient, the box gradient hook outputs the
scaled, sanitized, clipped value: the output is always finite with magnitude
at most `max_delta`; a scaled value exceeding `max_delta` (resp. below
`-max_delta`) yields exactly `max_delta` (resp. `-max_delta`); NaN and both
infinite inputs yield exactly 0; the forward value is the identity and the
gradients to the two scalar hyperparameters are 0. -/
theorem box_gradient_trap_spec (c d q : ℚ) (hd : 0 ≤ d) :
    (box_gradient_trap_backward c d (.fin q)).1 =
      clip_by_value (rm_nan_inf (FV.smul c (.fin q))) (-d) d ∧
    (∃ r : ℚ, (box_gradient_trap_backward c d (.fin q)).1 = .fin r ∧
      -d ≤ r ∧ r ≤ d) ∧
    (d < q * c → (box_gradient_trap_backward c d (.fin q)).1 = .fin d) ∧
    (q * c < -d → (box_gradient_trap_backward c d (.fin q)).1 = .fin (-d)) ∧
    (box_gradient_trap_backward c d .nan).1 = .fin 0 ∧
    (box_gradient_trap_backward c d .pinf).1 = .fin 0 ∧
    (box_gradient_trap_backward c d .ninf).1 = .fin 0 ∧
    box_gradient_trap_forward (.fin q) = .fin q ∧
    (box_gradient_trap_backward c d (.fin q)).2.1 = 0 ∧
    (box_gradient_trap_backward c d (.fin q)).2.2 = 0 := by
  refine ⟨rfl, ⟨min d (max (-d) (q * c)), rfl, ?_, ?_⟩, ?_, ?_, ?_, ?_, ?_,
    rfl, rfl, rfl⟩
  · have h1 : -d ≤ max (-d) (q * c) := le_max_left _ _
    have h2 : -d ≤ d := le_trans (neg_nonpos_of_nonneg hd) hd
    exact le_min h2 h1
  · exact min_le_left _ _
  · intro h
    have h1 : max (-d) (q * c) = q * c :=
      max_eq_right (le_trans (le_trans (neg_nonpos_of_nonneg hd) hd) h.le)
    simp only [box_gradient_trap_backward, FV.smul, rm_nan_inf, clip_by_value]
    rw [h1, min_eq_left h.le]
  · intro h
    have h1 : max (-d) (q * c) = -d := max_eq_left h.le
    have h2 : -d ≤ d := le_trans (neg_nonpos_of_nonneg hd) hd
    simp only [box_gradient_trap_backward, FV.smul, rm_nan_inf, clip_by_value]
    rw [h1, min_eq_right h2]
  · simp [box_gradient_trap_backward, FV.smul, rm_nan_inf, clip_by_value,
      max_eq_right (neg_nonpos_of_nonneg hd), min_eq_right hd]
  · have h1 : rm_nan_inf (FV.smul c .pinf) = .fin 0 := by
      unfold FV.smul
      by_cases h2 : 0 < c
      · simp [h2, rm_nan_inf]
      · by_cases h3 : c < 0 <;> simp [h2, h3, rm_nan_inf]
    simp [box_gradient_trap_backward, h1, clip_by_value,
      max_eq_right (neg_nonpos_of_nonneg hd), min_eq_right hd]
  · have h1 : rm_nan_inf (FV.smul c .ninf) = .fin 0 := by
      unfold FV.smul
      by_cases h2 : 0 < c
      · simp [h2, rm_nan_inf]
      · by_cases h3 : c < 0 <;> simp [h2, h3, rm_nan_inf]
    simp [box_gradient_trap_backward, h1, clip_by_value,
      max_eq_right (neg_nonpos_of_nonneg hd), min_eq_right hd]

/-- C3 witness: the specification evaluated at normalizer 2, clip bound 3,
upstream gradient 5. -/
theorem box_gradient_trap_spec_witness :
    (0 : ℚ) ≤ 3 ∧
    ((box_gradient_trap_backward 2 3 (.fin 5)).1 =
      clip_by_value (rm_nan_inf (FV.smul 2 (.fin 5))) (-3) 3 ∧
    (∃ r : ℚ, (box_gradient_trap_backward 2 3 (.fin 5)).1 = .fin r ∧
      -3 ≤ r ∧ r ≤ 3) ∧
    ((3 : ℚ) < 5 * 2 → (box_gradient_trap_backward 2 3 (.fin 5)).1 = .fin 3) ∧
    ((5 : ℚ) * 2 < -3 →
      (box_gradient_trap_backward 2 3 (.fin 5)).1 = .fin (-3)) ∧
    (box_gradient_trap_backward 2 3 .nan).1 = .fin 0 ∧
    (box_gradient_trap_backward 2 3 .pinf).1 = .fin 0 ∧
    (box_gradient_trap_backward 2 3 .ninf).1 = .fin 0 ∧
    box_gradient_trap_forward (.fin 5) = .fin 5 ∧
    (box_gradient_trap_backward 2 3 (.fin 5)).2.1 = 0 ∧
    (box_gradient_trap_backward 2 3 (.fin 5)).2.2 = 0) :=
  ⟨by norm_num, box_gradient_trap_spec 2 3 5 (by norm_num)⟩

/-- Logistic sigmoid, the model of `tf.math.sigmoid`. -/
noncomputable def sigmoid (x : ℝ) : ℝ := 1 / (1 + Real.exp (-x))

/-- Affine-widened sigmoid offset applied to raw xy outputs in both decoders
(yolo_loss.py lines 37 and 49):
sigmoid(raw) * scale_x_y - 0.5 * (scale_x_y - 1). -/
noncomputable def xyTransform (s raw : ℝ) : ℝ :=
  sigmoid raw * s - 0.5 * (s - 1)

/-- Grid composition of a decoded x offset (yolo_loss.py line 43): the
offset is divided by the grid resolution and added to the grid point. -/
noncomputable def decode_box_x (t W g : ℝ) : ℝ := t / W + g

/-- Legacy width/height decode (yolo_loss.py line 44): exponentiate the raw
offset and multiply by the anchor prior. -/
noncomputable def decode_box_w (t a : ℝ) : ℝ := Real.exp t * a

/-- Legacy xy encode from `_scale_ground_truth_box` (yolo_loss.py lines
186-191): relu of the center minus the grid point, times the resolution. -/
noncomputable def scale_ground_truth_xy (c g res : ℝ) : ℝ := max 0 (c - g) * res

/-- Legacy width/height encode from `_scale_ground_truth_box` (yolo_loss.py
lines 192-193): log of the box/anchor ratio.  `Real.log` is 0 on
non-positive input, which matches the `rm_nan_inf` sanitize-to-zero applied
on line 193 to the non-finite results of the float log. -/
noncomputable def scale_ground_truth_wh (b a : ℝ) : ℝ := Real.log (b / a)

/-- New-coordinates width/height decode (yolo_loss.py lines 50 and 56):
4 * sigmoid(raw)^2 * anchor. -/
noncomputable def get_predicted_box_newcords_wh (raw a : ℝ) : ℝ :=
  4 * (sigmoid raw) ^ 2 * a

/-- Full decoded x center of the legacy path (yolo_loss.py lines 37 and
43): the widened sigmoid offset composed onto the grid. -/
noncomputable def decode_center_x (W g s raw : ℝ) : ℝ :=
  xyTransform s raw / W + g

/-- C4: for the legacy codec, composing the target encoder with the offset
decoder reproduces the ground-truth center exactly when the center lies at
or after the cell corner, and reproduces the width/height exactly when box
and anchor dimensions are positive. -/
theorem legacy_codec_roundtrip (W H gx gy aw ah cx cy bw bh : ℝ)
    (hW : 0 < W) (hH : 0 < H) (hx : gx ≤ cx) (hy : gy ≤ cy)
    (haw : 0 < aw) (hah : 0 < ah) (hbw : 0 < bw) (hbh : 0 < bh) :
    decode_box_x (scale_ground_truth_xy cx gx W) W gx = cx ∧
    decode_box_x (scale_ground_truth_xy cy gy H) H gy = cy ∧
    decode_box_w (scale_ground_truth_wh bw aw) aw = bw ∧
    decode_box_w (scale_ground_truth_wh bh ah) ah = bh := by
  refine ⟨?_, ?_, ?_, ?_⟩
  · rw [decode_box_x, scale_ground_truth_xy, max_eq_right (sub_nonneg.mpr hx),
      mul_div_cancel_right₀ _ (ne_of_gt hW), sub_add_cancel]
  · rw [decode_box_x, scale_ground_truth_xy, max_eq_right (sub_nonneg.mpr hy),
      mul_div_cancel_right₀ _ (ne_of_gt hH), sub_add_cancel]
  · rw [decode_box_w, scale_ground_truth_wh, Real.exp_log (div_pos hbw haw),
      div_mul_cancel₀ _ (ne_of_gt haw)]
  · rw [decode_box_w, scale_ground_truth_wh, Real.exp_log (div_pos hbh hah),
      div_mul_cancel₀ _ (ne_of_gt hah)]

/-- C4 witness: the round trip evaluated on a unit grid with anchor (2,2)
and the box centered at (1/2, 1/2) with width and height 2. -/
theorem legacy_codec_roundtrip_witness :
    (0 : ℝ) < 1 ∧ (0 : ℝ) ≤ 1 / 2 ∧ (0 : ℝ) < 2 ∧
    (decode_box_x (scale_ground_truth_xy (1 / 2) 0 1) 1 0 = 1 / 2 ∧
     decode_box_x (scale_ground_truth_xy (1 / 2) 0 1) 1 0 = 1 / 2 ∧
     decode_box_w (scale_ground_truth_wh 2 2) 2 = 2 ∧
     decode_box_w (scale_ground_truth_wh 2 2) 2 = 2) :=
  ⟨by norm_num, by norm_num, by norm_num,
    legacy_codec_roundtrip 1 1 0 0 2 2 (1 / 2) (1 / 2) 2 2 (by norm_num)
      (by norm_num) (by norm_num) (by norm_num) (by norm_num) (by norm_num)
      (by norm_num) (by norm_num)⟩

/-- Positivity of the logistic sigmoid. -/
theorem sigmoid_pos (x : ℝ) : 0 < sigmoid x := by
  unfold sigmoid
  exact div_pos one_pos (by positivity)

/-- The logistic sigmoid is strictly below 1. -/
theorem sigmoid_lt_one (x : ℝ) : sigmoid x < 1 := by
  unfold sigmoid
  rw [div_lt_one (by positivity)]
  exact lt_add_of_pos_right 1 (Real.exp_pos _)

/-- The logistic sigmoid is strictly monotone. -/
theorem sigmoid_lt_sigmoid (x y : ℝ) (h : x < y) : sigmoid x < sigmoid y := by
  unfold sigmoid
  have h1 : Real.exp (-y) < Real.exp (-x) := Real.exp_lt_exp.mpr (by linarith)
  have h2 : 0 < 1 + Real.exp (-y) := by positivity
  exact one_div_lt_one_div_of_lt h2 (by linarith)

/-- C6: for positive anchor priors, the new-coordinates decoded
width/height equals 4 * sigmoid(raw)^2 * anchor, is strictly increasing in
the raw input, and is strictly bounded above by 4 * anchor. -/
theorem newcords_wh_spec (a r r1 r2 : ℝ) (ha : 0 < a) (h12 : r1 < r2) :
    get_predicted_box_newcords_wh r a = 4 * (sigmoid r) ^ 2 * a ∧
    get_predicted_box_newcords_wh r1 a < get_predicted_box_newcords_wh r2 a ∧
    get_predicted_box_newcords_wh r a < 4 * a := by
  refine ⟨rfl, ?_, ?_⟩
  · have h1 := sigmoid_pos r1
    have h2 := sigmoid_lt_sigmoid r1 r2 h12
    have h3 : sigmoid r1 ^ 2 < sigmoid r2 ^ 2 := by nlinarith
    unfold get_predicted_box_newcords_wh
    nlinarith [mul_pos ha (sub_pos.mpr h3)]
  · have h1 := sigmoid_pos r
    have h2 := sigmoid_lt_one r
    have h3 : sigmoid r ^ 2 < 1 := by nlinarith
    unfold get_predicted_box_newcords_wh
    nlinarith [mul_pos ha (sub_pos.mpr h3)]

/-- C6 witness: the new-coordinates width/height specification evaluated at
anchor 1 and raw inputs 0 and 1. -/
theorem newcords_wh_spec_witness :
    (0 : ℝ) < 1 ∧ (0 : ℝ) < 1 ∧
    (get_predicted_box_newcords_wh 0 1 = 4 * (sigmoid 0) ^ 2 * 1 ∧
     get_predicted_box_newcords_wh 0 1 < get_predicted_box_newcords_wh 1 1 ∧
     get_predicted_box_newcords_wh 0 1 < 4 * 1) :=
  ⟨by norm_num, by norm_num, newcords_wh_spec 1 0 0 1 (by norm_num) (by norm_num)⟩

/-- C8 counterexample: with scale_x_y = 2 on a unit grid, the raw offset
-log 7 decodes to a center a quarter cell before the cell corner, and the
legacy encoder (whose relu clamps at the corner) returns 0 rather than the
transformed offset -1/4, so encoded target and decoded prediction do not
coincide for every input. -/
theorem scale_xy_encode_decode_counterexample :
    scale_ground_truth_xy (decode_center_x 1 0 2 (-Real.log 7)) 0 1 ≠
      xyTransform 2 (-Real.log 7) := by
  have h7 : Real.exp (-(-Real.log 7)) = 7 := by
    rw [neg_neg, Real.exp_log]
    norm_num
  have hs : sigmoid (-Real.log 7) = 1 / 8 := by
    rw [sigmoid, h7]
    norm_num
  have ht : xyTransform 2 (-Real.log 7) = -(1 / 4) := by
    rw [xyTransform, hs]
    norm_num
  have hc : decode_center_x 1 0 2 (-Real.log 7) = -(1 / 4) := by
    rw [decode_center_x, ht]
    norm_num
  rw [hc, ht, scale_ground_truth_xy]
  rw [max_eq_left (by norm_num)]
  norm_num

/-- C8 amended: for positive grid resolution, whenever the decoded center
lies at or after the cell corner (always true for scale_x_y = 1, and true
for scale_x_y > 1 exactly when the widened offset is nonnegative), the
legacy encoder maps the decoded center back to precisely the widened
sigmoid offset used by the decoder, so both paths share one offset space. -/
theorem scale_xy_encode_decode_amended (s W g raw : ℝ) (hW : 0 < W)
    (h : g ≤ decode_center_x W g s raw) :
    scale_ground_truth_xy (decode_center_x W g s raw) g W =
      xyTransform s raw := by
  have h0 : 0 ≤ xyTransform s raw / W := by
    have h1 := sub_nonneg.mpr h
    rw [decode_center_x, add_sub_cancel_right] at h1
    exact h1
  rw [scale_ground_truth_xy, decode_center_x, add_sub_cancel_right,
    max_eq_right h0, div_mul_cancel₀ _ (ne_of_gt hW)]

/-- C8 witness: the amended encode/decode consistency evaluated at
scale_x_y = 1, unit grid, cell corner 0, raw offset 0. -/
theorem scale_xy_encode_decode_amended_witness :
    (0 : ℝ) < 1 ∧ (0 : ℝ) ≤ decode_center_x 1 0 1 0 ∧
    scale_ground_truth_xy (decode_center_x 1 0 1 0) 0 1 = xyTransform 1 0 :=
  ⟨by norm_num,
   by norm_num [decode_center_x, xyTransform, sigmoid, neg_zero, Real.exp_zero],
   scale_xy_encode_decode_amended 1 1 0 0 (by norm_num)
     (by norm_num [decode_center_x, xyTransform, sigmoid, neg_zero,
        Real.exp_zero])⟩

/-- A box in center/size format (xc, yc, w, h), the layout used by the loss
after `yxyx_to_xcycwh` conversion. -/
structure BoxQ where
  xc : ℚ
  yc : ℚ
  w : ℚ
  h : ℚ
deriving DecidableEq

/-- A box in corner format (ymin, xmin, ymax, xmax), the layout of the
ground-truth side-channel boxes fed to `build_masks`. -/
structure BoxYXYX where
  ymin : ℚ
  xmin : ℚ
  ymax : ℚ
  xmax : ℚ
deriving DecidableEq

/-- Modelled from the spec: `box_ops.yxyx_to_xcycwh` is not under the
sources provided; the corner box is converted to its center and extents. -/
def yxyx_to_xcycwh (b : BoxYXYX) : BoxQ :=
  ⟨(b.xmin + b.xmax) / 2, (b.ymin + b.ymax) / 2,
   b.xmax - b.xmin, b.ymax - b.ymin⟩

/-- Area of a center/size box. -/
def boxArea (b : BoxQ) : ℚ := b.w * b.h

/-- Intersection area of two center/size boxes, with negative overlaps
clamped to zero. -/
def intersectArea (a b : BoxQ) : ℚ :=
  let l := max (a.xc - a.w / 2) (b.xc - b.w / 2)
  let r := min (a.xc + a.w / 2) (b.xc + b.w / 2)
  let t := max (a.yc - a.h / 2) (b.yc - b.h / 2)
  let u := min (a.yc + a.h / 2) (b.yc + b.h / 2)
  relu (r - l) * relu (u - t)

/-- Modelled from the spec: `box_ops.compute_iou` is not under the sources
provided; per the glossary and section 4.4 the IoU is the ratio of
intersection area to union area, with safe division. -/
def compute_iou (a b : BoxQ) : ℚ :=
  divide_no_nan (intersectArea a b) (boxArea a + boxArea b - intersectArea a b)

/-- Model of `tf.argmax` on a vector of scores: the index of the first
maximal entry. -/
def argmaxIdx (l : List ℚ) : ℕ :=
  (List.range l.length).foldl
    (fun best i => if l.getD best 0 < l.getD i 0 then i else best) 0

/-- A ground-truth side-channel entry: a corner-format box and its class
id, as passed to `build_masks`. -/
structure GtBox where
  box : BoxYXYX
  cls : ℚ
deriving DecidableEq

/-- The `build_masks` ignore-mask entry at a single grid cell and anchor
(yolo_loss.py lines 242-267): the ground-truth boxes are converted from
corner format, an IoU mask over ground truths is intersected with the
class-agreement mask against the argmax of the predicted class scores, and
the ignore mask is the negation of their disjunction over ground truths. -/
def build_masks_entry (ignore_thresh : ℚ) (gts : List GtBox)
    (predBox : BoxQ) (predClasses : List ℚ) : ℚ :=
  let pred_classes_max : ℚ := (argmaxIdx predClasses : ℚ)
  let iou_mask : List Bool := gts.map fun g =>
    decide (ignore_thresh < compute_iou (yxyx_to_xcycwh g.box) predBox)
  let matched_classes : List Bool := gts.map fun g =>
    decide (g.cls = pred_classes_max)
  let combined := List.zipWith and iou_mask matched_classes
  if combined.any id then 0 else 1

/-- Applying a boolean function then asking whether any entry holds is the
same as asking directly. -/
theorem any_id_map (f : α → Bool) (l : List α) :
    (l.map f).any id = l.any f := by
  induction l with
  | nil => rfl
  | cons x xs ih => simp [ih]

/-- Pointwise conjunction of two boolean masks built over the same list is
the same as one fused predicate. -/
theorem zipWith_and_maps (p q : α → Bool) (l : List α) :
    (List.zipWith and (l.map p) (l.map q)).any id =
      l.any fun x => p x && q x := by
  induction l with
  | nil => rfl
  | cons x xs ih => simp [List.zipWith, ih, any_id_map]

/-- C5: the ignore-mask entry computed by `build_masks` is 0 exactly when
some ground-truth box has IoU with the predicted box above `ignore_thresh`
and class id equal to the argmax of the predicted class scores; in
particular a ground truth of a different class never causes the prediction
to be ignored. -/
theorem build_masks_ignore_iff (ignore_thresh : ℚ) (gts : List GtBox)
    (predBox : BoxQ) (predClasses : List ℚ) :
    build_masks_entry ignore_thresh gts predBox predClasses = 0 ↔
      ∃ g ∈ gts, ignore_thresh < compute_iou (yxyx_to_xcycwh g.box) predBox ∧
        g.cls = (argmaxIdx predClasses : ℚ) := by
  simp only [build_masks_entry]
  rw [zipWith_and_maps]
  split
  · next h =>
      simp only [List.any_eq_true, Bool.and_eq_true, decide_eq_true_eq] at h
      exact iff_of_true rfl h
  · next h =>
      simp only [List.any_eq_true, Bool.and_eq_true, decide_eq_true_eq] at h
      exact iff_of_false one_ne_zero h

/-- Per-position data of one sample presented to `Yolo_Loss.__call__`:
a decoded predicted box, the objectness logit, the class scores, with the
ground-truth box and objectness indicator at that grid cell and anchor. -/
structure PosData where
  predBox : BoxQ
  predConf : ℚ
  predClasses : List ℚ
  trueBox : BoxQ
  trueConf : ℚ
deriving DecidableEq

/-- Per-position box loss (yolo_loss.py lines 317-334): the giou or ciou
penalty or the mse term, each masked with `mul_no_nan` by the
true-objectness indicator.  The giou/ciou penalties and the encoded mse
term are taken as parameters since `box_ops.compute_giou`,
`box_ops.compute_ciou` and the float log of the mse encoding live outside
the sources provided. -/
def loss_box_entry (lossType : ℕ) (liouGiou liouCiou mseTerm trueConf : ℚ) : ℚ :=
  if lossType = 1 then mul_no_nan trueConf (1 - liouGiou)
  else if lossType = 2 then mul_no_nan trueConf (1 - liouCiou)
  else mul_no_nan trueConf mseTerm

/-- Per-position class loss (yolo_loss.py lines 339-346): the summed binary
cross-entropy over class channels (a framework primitive, taken as a
parameter), masked with `mul_no_nan` by the true-objectness indicator. -/
def class_loss_entry (trueConf classBce : ℚ) : ℚ :=
  mul_no_nan trueConf classBce

/-- Objectness mask of the legacy path (yolo_loss.py line 363):
true_conf + (1 - true_conf) * mask_loss. -/
def obj_mask_entry (trueConf maskLoss : ℚ) : ℚ :=
  trueConf + (1 - trueConf) * maskLoss

/-- Per-position objectness loss (yolo_loss.py lines 365-367): the binary
cross-entropy between the true-objectness target and the objectness logit
(a framework primitive, taken as a parameter), masked with `mul_no_nan` by
the objectness mask. -/
def conf_loss_entry (trueConf maskLoss bceVal : ℚ) : ℚ :=
  mul_no_nan (obj_mask_entry trueConf maskLoss) bceVal

/-- Box loss of one sample: the per-position box losses summed over the
spatial and anchor dimensions (yolo_loss.py lines 371-372). -/
def sample_box_loss (lossType : ℕ) (giouF ciouF mseF : PosData → ℚ)
    (ps : List PosData) : ℚ :=
  (ps.map fun p => loss_box_entry lossType (giouF p) (ciouF p) (mseF p)
    p.trueConf).sum

/-- Class loss of one sample, summed over positions (yolo_loss.py lines
375-376). -/
def sample_class_loss (clsBce : PosData → ℚ) (ps : List PosData) : ℚ :=
  (ps.map fun p => class_loss_entry p.trueConf (clsBce p)).sum

/-- Objectness loss of one sample, summed over positions (yolo_loss.py
lines 373-374), with the ignore mask of each position computed by
`build_masks` from the ground-truth side channel. -/
def sample_conf_loss (ignore_thresh : ℚ) (gts : List GtBox)
    (bce : ℚ → ℚ → ℚ) (ps : List PosData) : ℚ :=
  (ps.map fun p =>
    conf_loss_entry p.trueConf
      (build_masks_entry ignore_thresh gts p.predBox p.predClasses)
      (bce p.trueConf p.predConf)).sum

/-- The masked multiplication by a zero mask vanishes. -/
theorem mul_no_nan_zero (b : ℚ) : mul_no_nan 0 b = 0 := by
  simp [mul_no_nan]

/-- The masked multiplication by the mask 1 is the identity. -/
theorem mul_no_nan_one (b : ℚ) : mul_no_nan 1 b = b := by
  simp [mul_no_nan]

/-- Safe division with a zero numerator vanishes. -/
theorem divide_no_nan_zero_left (b : ℚ) : divide_no_nan 0 b = 0 := by
  unfold divide_no_nan
  split <;> simp

/-- The IoU of the degenerate all-zero corner box with any box is 0. -/
theorem compute_iou_zero_box (b : BoxQ) :
    compute_iou (yxyx_to_xcycwh ⟨0, 0, 0, 0⟩) b = 0 := by
  have hz : yxyx_to_xcycwh ⟨0, 0, 0, 0⟩ = ⟨0, 0, 0, 0⟩ := by
    simp [yxyx_to_xcycwh]
  have hi : intersectArea ⟨0, 0, 0, 0⟩ b = 0 := by
    simp only [intersectArea]
    have h1 : min (0 + 0 / 2 : ℚ) (b.xc + b.w / 2) -
        max (0 - 0 / 2 : ℚ) (b.xc - b.w / 2) ≤ 0 := by
      have h2 : min (0 + 0 / 2 : ℚ) (b.xc + b.w / 2) ≤ 0 := by
        simp
      have h3 : (0 : ℚ) ≤ max (0 - 0 / 2 : ℚ) (b.xc - b.w / 2) := by
        simp
      linarith
    have h4 : relu (min (0 + 0 / 2 : ℚ) (b.xc + b.w / 2) -
        max (0 - 0 / 2 : ℚ) (b.xc - b.w / 2)) = 0 := by
      simp [relu, max_eq_left h1]
    rw [h4, zero_mul]
  rw [hz, compute_iou, hi, divide_no_nan_zero_left]

/-- When every ground-truth side-channel box is the all-zero box and the
ignore threshold is nonnegative, the ignore mask is 1 at every position. -/
theorem build_masks_entry_all_zero (ignore_thresh : ℚ) (gts : List GtBox)
    (predBox : BoxQ) (predClasses : List ℚ)
    (hboxes : ∀ g ∈ gts, g.box = ⟨0, 0, 0, 0⟩) (hth : 0 ≤ ignore_thresh) :
    build_masks_entry ignore_thresh gts predBox predClasses = 1 := by
  simp only [build_masks_entry]
  rw [zipWith_and_maps]
  have h : (gts.any fun g =>
      decide (ignore_thresh < compute_iou (yxyx_to_xcycwh g.box) predBox) &&
      decide (g.cls = (argmaxIdx predClasses : ℚ))) = false := by
    rw [List.any_eq_false]
    intro g hg
    rw [hboxes g hg]
    simp [compute_iou_zero_box, not_lt.mpr hth]
  rw [h]
  rfl

/-- C7: for a sample whose true-objectness indicator is zero at every
position, the box loss and the class loss are exactly zero in every
loss_type mode, and when the ground-truth side channel holds only all-zero
boxes (the no-object case of the spec) and the ignore threshold is
nonnegative, the ignore mask is 1 everywhere, so the objectness loss
degenerates to the pure negative branch: the sum over all positions of the
binary cross-entropy against the target 0. -/
theorem all_zero_truth_spec (lossType : ℕ) (ignore_thresh : ℚ)
    (gts : List GtBox) (giouF ciouF mseF clsBce : PosData → ℚ)
    (bce : ℚ → ℚ → ℚ) (ps : List PosData)
    (hconf : ∀ p ∈ ps, p.trueConf = 0)
    (hboxes : ∀ g ∈ gts, g.box = ⟨0, 0, 0, 0⟩)
    (hth : 0 ≤ ignore_thresh) :
    sample_box_loss lossType giouF ciouF mseF ps = 0 ∧
    sample_class_loss clsBce ps = 0 ∧
    (∀ p ∈ ps,
      build_masks_entry ignore_thresh gts p.predBox p.predClasses = 1) ∧
    sample_conf_loss ignore_thresh gts bce ps =
      (ps.map fun p => bce 0 p.predConf).sum := by
  refine ⟨?_, ?_, ?_, ?_⟩
  · apply List.sum_eq_zero
    intro x hx
    rw [List.mem_map] at hx
    obtain ⟨p, hp, hpx⟩ := hx
    rw [← hpx, hconf p hp]
    unfold loss_box_entry
    split
    · exact mul_no_nan_zero _
    · split
      · exact mul_no_nan_zero _
      · exact mul_no_nan_zero _
  · apply List.sum_eq_zero
    intro x hx
    rw [List.mem_map] at hx
    obtain ⟨p, hp, hpx⟩ := hx
    rw [← hpx, hconf p hp]
    exact mul_no_nan_zero _
  · intro p hp
    exact build_masks_entry_all_zero ignore_thresh gts p.predBox
      p.predClasses hboxes hth
  · unfold sample_conf_loss
    congr 1
    apply List.map_congr_left
    intro p hp
    rw [build_masks_entry_all_zero ignore_thresh gts p.predBox
      p.predClasses hboxes hth, hconf p hp]
    unfold conf_loss_entry obj_mask_entry
    rw [show (0 : ℚ) + (1 - 0) * 1 = 1 by norm_num, mul_no_nan_one]

/-- C7 witness: the all-zero-ground-truth specification evaluated at one
position with trueConf 0, one all-zero ground-truth box, mse loss mode and
a concrete stand-in for the framework binary cross-entropy. -/
theorem all_zero_truth_spec_witness :
    (∀ p ∈ [(⟨⟨1/2, 1/2, 1/4, 1/4⟩, 7, [1, 2], ⟨0, 0, 0, 0⟩, 0⟩ : PosData)],
      p.trueConf = 0) ∧
    (∀ g ∈ [(⟨⟨0, 0, 0, 0⟩, 3⟩ : GtBox)], g.box = ⟨0, 0, 0, 0⟩) ∧
    (0 : ℚ) ≤ 7/10 ∧
    (sample_box_loss 0 (fun _ => 5) (fun _ => 5) (fun _ => 5)
      [⟨⟨1/2, 1/2, 1/4, 1/4⟩, 7, [1, 2], ⟨0, 0, 0, 0⟩, 0⟩] = 0 ∧
    sample_class_loss (fun _ => 5)
      [⟨⟨1/2, 1/2, 1/4, 1/4⟩, 7, [1, 2], ⟨0, 0, 0, 0⟩, 0⟩] = 0 ∧
    (∀ p ∈ [(⟨⟨1/2, 1/2, 1/4, 1/4⟩, 7, [1, 2], ⟨0, 0, 0, 0⟩, 0⟩ : PosData)],
      build_masks_entry (7/10) [⟨⟨0, 0, 0, 0⟩, 3⟩] p.predBox p.predClasses = 1) ∧
    sample_conf_loss (7/10) [⟨⟨0, 0, 0, 0⟩, 3⟩] (fun t x => t + 2 * x)
      [⟨⟨1/2, 1/2, 1/4, 1/4⟩, 7, [1, 2], ⟨0, 0, 0, 0⟩, 0⟩] =
      ([(⟨⟨1/2, 1/2, 1/4, 1/4⟩, 7, [1, 2], ⟨0, 0, 0, 0⟩, 0⟩ : PosData)].map
        fun p => (fun t x => t + 2 * x) 0 p.predConf).sum) :=
  ⟨by decide, by decide, by norm_num,
   all_zero_truth_spec 0 (7/10) [⟨⟨0, 0, 0, 0⟩, 3⟩] (fun _ => 5) (fun _ => 5)
     (fun _ => 5) (fun _ => 5) (fun t x => t + 2 * x)
     [⟨⟨1/2, 1/2, 1/4, 1/4⟩, 7, [1, 2], ⟨0, 0, 0, 0⟩, 0⟩]
     (by decide) (by decide) (by norm_num)⟩

/-- Local variable names bound in the active body of `Yolo_Loss.__call__`
(yolo_loss.py lines 272-393) by the time control reaches the new_cords
branch on line 356: the parameters and every name assigned on the active
(uncommented) lines, over all loss_type branches. -/
def call_local_names : List String :=
  ["self", "y_true", "y_pred", "boxes", "classes", "shape", "batch_size",
   "width", "height", "num", "grid_points", "anchor_grid", "fwidth",
   "fheight", "pred_box", "pred_conf", "pred_class", "pred_xy", "pred_wh",
   "true_box", "true_conf", "true_class", "best_iou_match", "mask_loss",
   "true_mask", "iou", "liou", "loss_box", "scale", "true_xy", "true_wh",
   "loss_xy", "loss_wh", "class_loss"]

/-- Module-level names of yolo_loss.py visible as globals inside
`Yolo_Loss.__call__`: the imports (the functools import is elided as it is
never referenced in the branch under study) and the module definitions. -/
def yolo_loss_module_names : List String :=
  ["tf", "ks", "K", "GridGenerator", "box_ops", "math_ops", "np",
   "obj_gradient_trap", "box_gradient_trap", "class_gradient_trap",
   "get_predicted_box", "get_predicted_box_newcords", "Yolo_Loss"]

/-- Python name resolution for a reference inside the method body: a name
resolves when it is a bound local or a module global. -/
def name_resolves (locs globs : List String) (n : String) : Bool :=
  locs.contains n || globs.contains n

/-- First unresolvable reference of a straight-line statement sequence, the
name whose lookup raises NameError. -/
def first_name_error (refs locs globs : List String) : Option String :=
  refs.find? fun n => !(name_resolves locs globs n)

/-- Names referenced, in evaluation order, by the new_cords branch of the
active `__call__` (yolo_loss.py lines 356-361): line 358 reads `tf` and
`true_conf`; line 359 reads `tf`, `matched_mask`, `liou`, `true_conf`;
line 360 reads `tf`, `truth_alter`, `liou`, `true_conf`. -/
def new_cords_branch_refs : List String :=
  ["tf", "true_conf", "tf", "matched_mask", "liou", "true_conf", "tf",
   "truth_alter", "liou", "true_conf"]

/-- Evaluating the new_cords objectness-target branch of the active
`__call__`: the branch raises on its first unresolvable name, since the
`get_mask` call that would bind `matched_mask` and `truth_alter` is
commented out (yolo_loss.py lines 351-354). -/
def new_cords_obj_target_eval : Except String Unit :=
  match first_name_error new_cords_branch_refs call_local_names
      yolo_loss_module_names with
  | some n => Except.error ("NameError: name " ++ n ++ " is not defined")
  | none => Except.ok ()

/-- C1: in the new-coordinates variant the active `__call__` never reaches
the IoU-aware objectness targets the claim describes: the branch references
`matched_mask` (and later `truth_alter`), which is bound by no active
assignment and is no module global, so the first call raises NameError
instead of feeding any target to the binary cross-entropy. -/
theorem new_cords_objectness_name_error :
    new_cords_obj_target_eval =
      Except.error "NameError: name matched_mask is not defined" ∧
    "matched_mask" ∉ call_local_names ∧
    "matched_mask" ∉ yolo_loss_module_names ∧
    "truth_alter" ∉ call_local_names ∧
    "truth_alter" ∉ yolo_loss_module_names := by
  refine ⟨rfl, ?_, ?_, ?_, ?_⟩ <;> decide

/-- A scalar tensor value tagged with whether it is attached to the
gradient graph; `tf.stop_gradient` detaches, arithmetic propagates
attachment. -/
structure TVal where
  v : ℚ
  att : Bool
deriving DecidableEq

/-- Model of `tf.stop_gradient`. -/
def stop_gradient (x : TVal) : TVal := ⟨x.v, false⟩

/-- Elementwise sum of two tracked scalars. -/
def tval_add (a b : TVal) : TVal := ⟨a.v + b.v, a.att || b.att⟩

/-- Model of `tf.reduce_sum` over a per-sample list of tracked scalars. -/
def tval_sum (l : List TVal) : TVal :=
  ⟨(l.map TVal.v).sum, (l.map TVal.att).any id⟩

/-- Model of `tf.reduce_mean` over a per-sample list of tracked scalars. -/
def tval_mean (l : List TVal) : TVal :=
  ⟨(l.map TVal.v).sum / (l.length : ℚ), (l.map TVal.att).any id⟩

/-- Steps 8-10 of `Yolo_Loss.__call__` (yolo_loss.py lines 380-393): the
per-sample loss components are combined into the total (sum or mean by
configuration), the three sub-losses are reduced by `tf.reduce_mean` with
no `stop_gradient`, the three metrics pass through the `stop_gradient`
ending `recall` (line 220) and `avgiou` (line 228), and the seven values
are returned in order.  The numeric metric values are parameters since
their computation uses the framework sigmoid. -/
def yolo_call_return (useRedSum : Bool)
    (loss_box conf_loss class_loss : List TVal)
    (avg_iou_val avg_obj_val recall_val : TVal) : List TVal :=
  let totals := List.zipWith tval_add
    (List.zipWith tval_add class_loss conf_loss) loss_box
  let loss := if useRedSum then tval_sum totals else tval_mean totals
  [loss, tval_mean loss_box, tval_mean conf_loss, tval_mean class_loss,
   stop_gradient avg_iou_val, stop_gradient avg_obj_val,
   stop_gradient recall_val]

/-- The per-level binding in `YoloTask.build_losses` (yolo/tasks/yolo.py
line 198): exactly six names stand on the left of the unpacking
assignment, so a tuple whose length is not six raises ValueError. -/
def build_losses_unpack (t : List TVal) :
    Except String (TVal × TVal × TVal × TVal × TVal × TVal) :=
  match t with
  | [a, b, c, d, e, f] => Except.ok (a, b, c, d, e, f)
  | _ => Except.error "ValueError: values to unpack do not match six targets"

/-- C2 counterexample: on a concrete batch the seven-tuple does come back,
but its box-loss component (index 1) is still attached to the gradient
graph, and the six-name unpacking of `build_losses` fails on the
seven-tuple, so the claim is false as stated. -/
theorem seven_tuple_claim_counterexample :
    (yolo_call_return false [⟨2, true⟩] [⟨3, true⟩] [⟨4, true⟩]
      ⟨5, true⟩ ⟨6, true⟩ ⟨7, true⟩).length = 7 ∧
    ((yolo_call_return false [⟨2, true⟩] [⟨3, true⟩] [⟨4, true⟩]
      ⟨5, true⟩ ⟨6, true⟩ ⟨7, true⟩).getD 1 ⟨0, false⟩).att = true ∧
    build_losses_unpack (yolo_call_return false [⟨2, true⟩] [⟨3, true⟩]
      [⟨4, true⟩] ⟨5, true⟩ ⟨6, true⟩ ⟨7, true⟩) =
      Except.error "ValueError: values to unpack do not match six targets" := by
  refine ⟨rfl, rfl, rfl⟩

/-- C2 amended: every invocation returns the seven-tuple (total, box,
objectness, class, avg_iou, avg_objectness, recall50) in which only the
three diagnostic metrics are detached; the three sub-losses inherit
attachment from their inputs, and the training task binds only six
components, so consuming a per-level seven-tuple raises a ValueError. -/
theorem seven_tuple_amended (useRedSum : Bool)
    (loss_box conf_loss class_loss : List TVal)
    (avg_iou_val avg_obj_val recall_val : TVal) :
    (yolo_call_return useRedSum loss_box conf_loss class_loss
      avg_iou_val avg_obj_val recall_val).length = 7 ∧
    ((yolo_call_return useRedSum loss_box conf_loss class_loss
      avg_iou_val avg_obj_val recall_val).getD 4 ⟨0, true⟩).att = false ∧
    ((yolo_call_return useRedSum loss_box conf_loss class_loss
      avg_iou_val avg_obj_val recall_val).getD 5 ⟨0, true⟩).att = false ∧
    ((yolo_call_return useRedSum loss_box conf_loss class_loss
      avg_iou_val avg_obj_val recall_val).getD 6 ⟨0, true⟩).att = false ∧
    ((yolo_call_return useRedSum loss_box conf_loss class_loss
      avg_iou_val avg_obj_val recall_val).getD 1 ⟨0, true⟩).att =
      (loss_box.map TVal.att).any id ∧
    ((yolo_call_return useRedSum loss_box conf_loss class_loss
      avg_iou_val avg_obj_val recall_val).getD 2 ⟨0, true⟩).att =
      (conf_loss.map TVal.att).any id ∧
    ((yolo_call_return useRedSum loss_box conf_loss class_loss
      avg_iou_val avg_obj_val recall_val).getD 3 ⟨0, true⟩).att =
      (class_loss.map TVal.att).any id ∧
    build_losses_unpack (yolo_call_return useRedSum loss_box conf_loss
      class_loss avg_iou_val avg_obj_val recall_val) =
      Except.error "ValueError: values to unpack do not match six targets" := by
  refine ⟨rfl, rfl, rfl, rfl, rfl, rfl, rfl, rfl⟩

/-- Mapping of the loss_type string in `Yolo_Loss.__init__` (yolo_loss.py
lines 123-128): giou and ciou get codes 1 and 2, every other string is
silently given the mse code 0 by the else branch. -/
def lossTypeCode (loss_type : String) : ℕ :=
  if loss_type = "giou" then 1 else if loss_type = "ciou" then 2 else 0

/-- The configuration state stored by `Yolo_Loss.__init__`. -/
structure YoloLossConfig where
  classes : ℕ
  num : ℕ
  masks : List ℕ
  truthThresh : ℚ
  ignoreThresh : ℚ
  lossType : ℕ
  iouNormalizer : ℚ
  clsNormalizer : ℚ
  objNormalizer : ℚ
  scaleXY : ℚ
  maxDelta : ℚ
  newCords : Bool
deriving DecidableEq

/-- Model of `Yolo_Loss.__init__` (yolo_loss.py lines 61-159).  The body
contains no raise statement and no validation: the loss_type string is
folded by if/elif/else with unknown strings falling to the mse code
(lines 123-128), the mask list is stored with its length (line 115), and
the mask is forwarded to the GridGenerator constructor.  Modelled from the
spec: the GridGenerator (yolo/ops/loss_utils) is not under the sources
provided; its contract in spec section 4.1 is a deterministic tensor
factory with no failure mode, so construction always succeeds. -/
def Yolo_Loss_init (classes : ℕ) (mask : List ℕ)
    (ignore_thresh truth_thresh : ℚ) (loss_type : String)
    (iou_normalizer cls_normalizer obj_normalizer scale_x_y max_delta : ℚ)
    (new_cords : Bool) : Except String YoloLossConfig :=
  Except.ok ⟨classes, mask.length, mask, truth_thresh, ignore_thresh,
    lossTypeCode loss_type, iou_normalizer, cls_normalizer, obj_normalizer,
    scale_x_y, max_delta, new_cords⟩

/-- C9 counterexample: constructing with the unknown loss-type string
"bogus" and an empty anchor mask succeeds and silently stores the mse code
0, so no error is raised at construction time. -/
theorem yolo_loss_init_counterexample :
    Yolo_Loss_init 80 [] (7/10) 1 "bogus" 1 1 1 1 10 false =
      Except.ok ⟨80, 0, [], 1, 7/10, 0, 1, 1, 1, 1, 10, false⟩ ∧
    lossTypeCode "bogus" = 0 ∧ lossTypeCode "mse" = 0 := by
  refine ⟨rfl, rfl, rfl⟩

/-- C9 amended: `Yolo_Loss.__init__` never raises; any loss_type string
other than giou and ciou (including invalid ones) is silently mapped to
the mse code 0, and an empty anchor mask is accepted with stored length 0,
deferring any failure to later use. -/
theorem yolo_loss_init_amended (classes : ℕ) (mask : List ℕ)
    (ignore_thresh truth_thresh : ℚ) (loss_type : String)
    (iou_normalizer cls_normalizer obj_normalizer scale_x_y max_delta : ℚ)
    (new_cords : Bool) (h1 : loss_type ≠ "giou") (h2 : loss_type ≠ "ciou") :
    Yolo_Loss_init classes mask ignore_thresh truth_thresh loss_type
      iou_normalizer cls_normalizer obj_normalizer scale_x_y max_delta
      new_cords =
      Except.ok ⟨classes, mask.length, mask, truth_thresh, ignore_thresh, 0,
        iou_normalizer, cls_normalizer, obj_normalizer, scale_x_y, max_delta,
        new_cords⟩ := by
  unfold Yolo_Loss_init lossTypeCode
  rw [if_neg h1, if_neg h2]

/-- C9 amended witness: the construction evaluated at the invalid
loss-type string "bogus" with an empty mask. -/
theorem yolo_loss_init_amended_witness :
    "bogus" ≠ "giou" ∧ "bogus" ≠ "ciou" ∧
    Yolo_Loss_init 80 [] (7/10) 1 "bogus" 1 1 1 1 10 true =
      Except.ok ⟨80, ([] : List ℕ).length, [], 1, 7/10, 0, 1, 1, 1, 1, 10,
        true⟩ :=
  ⟨by decide, by decide,
   yolo_loss_init_amended 80 [] (7/10) 1 "bogus" 1 1 1 1 10 true
     (by decide) (by decide)⟩

/-- A candidate box in corner layout as fed to `nms` (nms_ops.py). -/
structure CBox where
  y1 : ℚ
  x1 : ℚ
  y2 : ℚ
  x2 : ℚ
deriving DecidableEq

/-- Elementwise scaling of a box by a mask factor, the model of
`boxes * mask`. -/
def scaleCBox (m : ℚ) (b : CBox) : CBox :=
  ⟨b.y1 * m, b.x1 * m, b.y2 * m, b.x2 * m⟩

/-- A candidate before class reduction: box, per-class scores, confidence. -/
structure Cand where
  box : CBox
  cls : List ℚ
  conf : ℚ
deriving DecidableEq

/-- A detection after the argmax class reduction on nms_ops.py line 106:
box, scalar class label, confidence. -/
structure Det where
  box : CBox
  cls : ℚ
  conf : ℚ
deriving DecidableEq

/-- Ceiling on rationals, the model of `tf.math.ceil`. -/
def ceilQ (x : ℚ) : ℚ := (Int.ceil x : ℚ)

/-- Pre-NMS confidence mask (nms_ops.py lines 95-96):
ceil(relu(confidence - pre_nms_thresh)). -/
def pre_nms_mask (pre conf : ℚ) : ℚ := ceilQ (relu (conf - pre))

/-- Application of the pre-NMS mask to one candidate (nms_ops.py lines
97-100): confidence, boxes and class scores are all multiplied by the
mask. -/
def mask_cand (pre : ℚ) (c : Cand) : Cand :=
  ⟨scaleCBox (pre_nms_mask pre c.conf) c.box,
   c.cls.map (fun x => x * pre_nms_mask pre c.conf),
   c.conf * pre_nms_mask pre c.conf⟩

/-- Maximum of a score list, the model of `tf.reduce_max` over the class
axis (nms_ops.py line 103); class vectors are nonempty in practice. -/
def listMax : List ℚ → ℚ
  | [] => 0
  | x :: xs => xs.foldl max x

/-- Insertion step of the descending sort modelling `tf.math.top_k`. -/
def insertDescBy (f : α → ℚ) (c : α) : List α → List α
  | [] => [c]
  | x :: xs => if f c ≤ f x then x :: insertDescBy f c xs else c :: x :: xs

/-- Descending insertion sort on a score projection. -/
def sortDescBy (f : α → ℚ) : List α → List α
  | [] => []
  | x :: xs => insertDescBy f x (sortDescBy f xs)

/-- Model of `sort_drop` (nms_ops.py lines 29-43): `tf.math.top_k` on the
score followed by a gather, i.e. sort descending by score and keep the
first k entries. -/
def sort_drop (f : α → ℚ) (k : ℕ) (l : List α) : List α :=
  (sortDescBy f l).take k

/-- Suppression sweep of `segment_nms` (nms_ops.py lines 46-77) carrying
the boxes of all earlier-index entries: entry j is zeroed exactly when
some entry of smaller index has DIoU at least the threshold with it
(`mask_x > mask_y` keeps the strict upper triangle and `reduce_any` is
taken over the suppressor axis); suppression uses the input boxes, so a
suppressed box still suppresses later ones.  The pairwise DIoU
(`box_ops.compute_diou`, not under the sources provided) is a parameter. -/
def segment_nms_go (diou : CBox → CBox → ℚ) (thr : ℚ) (prev : List CBox) :
    List Det → List Det
  | [] => []
  | e :: rest =>
    let supp := prev.any fun b => decide (thr ≤ diou b e.box)
    let raw : ℚ := if supp then 0 else 1
    ⟨scaleCBox raw e.box, raw * e.cls, raw * e.conf⟩ ::
      segment_nms_go diou thr (prev ++ [e.box]) rest

/-- Model of `segment_nms` on one image (nms_ops.py lines 46-77). -/
def segment_nms (diou : CBox → CBox → ℚ) (thr : ℚ) (l : List Det) :
    List Det :=
  segment_nms_go diou thr [] l

/-- Model of the `nms` entry point (nms_ops.py lines 80-110) on one image:
optional pre-truncation, pre-NMS threshold masking, optional replacement
of the confidence by the best class score, top-k sort, argmax class
reduction, pairwise suppression, and a final top-k sort. -/
def nms (diou : CBox → CBox → ℚ) (k : ℕ) (pre_nms_thresh nms_thresh : ℚ)
    (limit_pre_thresh use_classes : Bool) (cands : List Cand) : List Det :=
  let c1 := if limit_pre_thresh then sort_drop (fun c => c.conf) k cands
    else cands
  let c2 := c1.map (mask_cand pre_nms_thresh)
  let c3 := if use_classes then
    c2.map (fun c => (⟨c.box, c.cls, listMax c.cls⟩ : Cand)) else c2
  let c4 := sort_drop (fun c => c.conf) k c3
  let d1 := c4.map fun c => (⟨c.box, (argmaxIdx c.cls : ℚ), c.conf⟩ : Det)
  let d2 := segment_nms diou nms_thresh d1
  sort_drop (fun d : Det => d.conf) k d2

/-- Insertion preserves length up to the added element. -/
theorem insertDescBy_length (f : α → ℚ) (c : α) (l : List α) :
    (insertDescBy f c l).length = l.length + 1 := by
  induction l with
  | nil => rfl
  | cons x xs ih =>
    rw [insertDescBy]
    split
    · simp [ih]
    · rfl

/-- The descending sort preserves length. -/
theorem sortDescBy_length (f : α → ℚ) (l : List α) :
    (sortDescBy f l).length = l.length := by
  induction l with
  | nil => rfl
  | cons x xs ih =>
    rw [sortDescBy, insertDescBy_length, ih]
    simp

/-- When at least k entries are present, `sort_drop` returns exactly k. -/
theorem sort_drop_length (f : α → ℚ) (k : ℕ) (l : List α)
    (h : k ≤ l.length) : (sort_drop f k l).length = k := by
  rw [sort_drop, List.length_take, sortDescBy_length]
  exact min_eq_left h

/-- Insertion produces a permutation of consing. -/
theorem insertDescBy_perm (f : α → ℚ) (c : α) (l : List α) :
    List.Perm (insertDescBy f c l) (c :: l) := by
  induction l with
  | nil => exact List.Perm.refl _
  | cons x xs ih =>
    rw [insertDescBy]
    split
    · exact (ih.cons x).trans (List.Perm.swap c x xs)
    · exact List.Perm.refl _

/-- Insertion into a descending-sorted list keeps it sorted. -/
theorem insertDescBy_sorted (f : α → ℚ) (c : α) (l : List α)
    (h : List.Sorted (fun a b => f b ≤ f a) l) :
    List.Sorted (fun a b => f b ≤ f a) (insertDescBy f c l) := by
  induction l with
  | nil => simp [insertDescBy]
  | cons x xs ih =>
    rw [List.sorted_cons] at h
    rw [insertDescBy]
    split
    · next hc =>
        rw [List.sorted_cons]
        refine ⟨?_, ih h.2⟩
        intro b hb
        rcases List.mem_cons.mp ((insertDescBy_perm f c xs).mem_iff.mp hb)
          with hb1 | hb1
        · rw [hb1]
          exact hc
        · exact h.1 b hb1
    · next hc =>
        rw [List.sorted_cons]
        refine ⟨?_, List.sorted_cons.mpr h⟩
        intro b hb
        rcases List.mem_cons.mp hb with hb1 | hb1
        · rw [hb1]
          exact le_of_lt (lt_of_not_le hc)
        · exact le_trans (h.1 b hb1) (le_of_lt (lt_of_not_le hc))

/-- The descending sort is sorted. -/
theorem sortDescBy_sorted (f : α → ℚ) (l : List α) :
    List.Sorted (fun a b => f b ≤ f a) (sortDescBy f l) := by
  induction l with
  | nil => exact List.sorted_nil
  | cons x xs ih => exact insertDescBy_sorted f x (sortDescBy f xs) ih

/-- The output of `sort_drop` is sorted descending on the score. -/
theorem sort_drop_sorted (f : α → ℚ) (k : ℕ) (l : List α) :
    List.Sorted (fun a b => f b ≤ f a) (sort_drop f k l) :=
  List.Pairwise.sublist (List.take_sublist k (sortDescBy f l))
    (sortDescBy_sorted f l)

/-- The suppression sweep preserves length. -/
theorem segment_nms_go_length (diou : CBox → CBox → ℚ) (thr : ℚ)
    (l : List Det) : ∀ prev : List CBox,
    (segment_nms_go diou thr prev l).length = l.length := by
  induction l with
  | nil => intro prev; rfl
  | cons e rest ih =>
    intro prev
    simp [segment_nms_go, ih]

/-- Entry j of the suppression sweep: zeroed exactly when a carried or
earlier-index box reaches the threshold against it, otherwise kept. -/
theorem segment_nms_go_getD (diou : CBox → CBox → ℚ) (thr : ℚ) (dd : Det)
    (l : List Det) : ∀ (prev : List CBox) (j : ℕ), j < l.length →
    (segment_nms_go diou thr prev l).getD j dd =
      (if (prev ++ (l.map Det.box).take j).any
          (fun b => decide (thr ≤ diou b (l.getD j dd).box))
        then ⟨scaleCBox 0 (l.getD j dd).box, 0 * (l.getD j dd).cls,
          0 * (l.getD j dd).conf⟩
        else ⟨scaleCBox 1 (l.getD j dd).box, 1 * (l.getD j dd).cls,
          1 * (l.getD j dd).conf⟩) := by
  induction l with
  | nil =>
    intro prev j hj
    simp at hj
  | cons e rest ih =>
    intro prev j hj
    cases j with
    | zero =>
      simp only [segment_nms_go, List.getD_cons_zero, List.take_zero,
        List.append_nil]
      split <;> simp_all
    | succ j =>
      have hj2 : j < rest.length := by simpa using hj
      have hcons : segment_nms_go diou thr prev (e :: rest) =
          (⟨scaleCBox (if prev.any (fun b => decide (thr ≤ diou b e.box))
              then (0 : ℚ) else 1) e.box,
            (if prev.any (fun b => decide (thr ≤ diou b e.box))
              then (0 : ℚ) else 1) * e.cls,
            (if prev.any (fun b => decide (thr ≤ diou b e.box))
              then (0 : ℚ) else 1) * e.conf⟩ : Det) ::
            segment_nms_go diou thr (prev ++ [e.box]) rest := by
        simp only [segment_nms_go]
      rw [hcons, List.getD_cons_succ, ih (prev ++ [e.box]) j hj2]
      simp only [List.map_cons, List.take_succ_cons, List.getD_cons_succ,
        List.append_assoc, List.singleton_append]

/-- A candidate at or below the pre-NMS threshold gets mask 0. -/
theorem pre_nms_mask_eq_zero (pre conf : ℚ) (h : conf ≤ pre) :
    pre_nms_mask pre conf = 0 := by
  unfold pre_nms_mask relu ceilQ
  rw [max_eq_left (sub_nonpos.mpr h)]
  simp

/-- A candidate strictly above the pre-NMS threshold gets a positive mask. -/
theorem pre_nms_mask_pos (pre conf : ℚ) (h : pre < conf) :
    0 < pre_nms_mask pre conf := by
  unfold pre_nms_mask relu ceilQ
  have h1 : (0 : ℚ) < conf - pre := sub_pos.mpr h
  have h2 : (0 : ℚ) < max 0 (conf - pre) := lt_max_of_lt_right h1
  have h3 : (0 : ℤ) < Int.ceil (max (0 : ℚ) (conf - pre)) := Int.ceil_pos.mpr h2
  exact_mod_cast h3

/-- Masking a candidate at or below the pre-NMS threshold zeroes its box,
its confidence, and every class score. -/
theorem mask_cand_below_thresh (pre : ℚ) (c : Cand) (h : c.conf ≤ pre) :
    (mask_cand pre c).box = ⟨0, 0, 0, 0⟩ ∧ (mask_cand pre c).conf = 0 ∧
    ∀ x ∈ (mask_cand pre c).cls, x = 0 := by
  have h0 := pre_nms_mask_eq_zero pre c.conf h
  refine ⟨?_, ?_, ?_⟩
  · simp [mask_cand, h0, scaleCBox]
  · simp [mask_cand, h0]
  · intro x hx
    simp only [mask_cand, h0, List.mem_map] at hx
    obtain ⟨y, _, hy⟩ := hx
    simpa using hy.symm

/-- Any-with-a-prefix in terms of indexed entries. -/
theorem take_any_iff (l : List α) (p : α → Bool) (j : ℕ) (hj : j ≤ l.length)
    (dd : α) :
    (l.take j).any p = true ↔ ∃ i, i < j ∧ p (l.getD i dd) = true := by
  rw [List.any_eq_true]
  constructor
  · rintro ⟨x, hx, hpx⟩
    rw [List.mem_iff_getElem] at hx
    obtain ⟨i, hi, hxe⟩ := hx
    have hlen : (l.take j).length = j := by
      rw [List.length_take]
      exact min_eq_left hj
    rw [hlen] at hi
    refine ⟨i, hi, ?_⟩
    have hil : i < l.length := lt_of_lt_of_le hi hj
    have hx2 : l.getD i dd = x := by
      rw [List.getD_eq_getElem l dd hil, ← hxe]
      exact (List.getElem_take l).symm
    rw [hx2]
    exact hpx
  · rintro ⟨i, hij, hp⟩
    have hil : i < l.length := lt_of_lt_of_le hij hj
    refine ⟨l.getD i dd, ?_, hp⟩
    rw [List.mem_iff_getElem]
    have hit : i < (l.take j).length := by
      rw [List.length_take]
      exact lt_min hij hil
    refine ⟨i, hit, ?_⟩
    rw [List.getD_eq_getElem l dd hil]
    exact List.getElem_take l

/-- Any over a mapped list is any of the fused predicate. -/
theorem any_map_proj (f : α → β) (p : β → Bool) (l : List α) :
    (l.map f).any p = l.any fun x => p (f x) := by
  induction l with
  | nil => rfl
  | cons x xs ih => simp [ih]

/-- C10: with at least k candidates, `nms` returns exactly k detections
(boxes, class labels and confidences), sorted by descending confidence;
candidates at or below `pre_nms_thresh` are zeroed in place by the mask
stage rather than removed, and an entry of `segment_nms` is replaced by the
all-zero detection exactly when some smaller-index (higher-ranked) box has
DIoU at least `nms_thresh` with it, the list keeping its length. -/
theorem nms_spec (diou : CBox → CBox → ℚ) (k : ℕ) (pre thr : ℚ)
    (use_cl : Bool) (cands : List Cand) (dets : List Det) (j : ℕ) (dd : Det)
    (hk : k ≤ cands.length) (hj : j < dets.length) :
    (nms diou k pre thr false use_cl cands).length = k ∧
    List.Sorted (fun a b : Det => b.conf ≤ a.conf)
      (nms diou k pre thr false use_cl cands) ∧
    (∀ c ∈ cands, c.conf ≤ pre → (mask_cand pre c).box = ⟨0, 0, 0, 0⟩ ∧
      (mask_cand pre c).conf = 0 ∧ ∀ x ∈ (mask_cand pre c).cls, x = 0) ∧
    (segment_nms diou thr dets).length = dets.length ∧
    ((∃ i, i < j ∧
        thr ≤ diou ((dets.getD i dd).box) ((dets.getD j dd).box)) →
      (segment_nms diou thr dets).getD j dd = ⟨⟨0, 0, 0, 0⟩, 0, 0⟩) ∧
    ((∀ i, i < j →
        diou ((dets.getD i dd).box) ((dets.getD j dd).box) < thr) →
      (segment_nms diou thr dets).getD j dd = dets.getD j dd) := by
  have hany : ((dets.map Det.box).take j).any
          (fun b => decide (thr ≤ diou b ((dets.getD j dd).box))) =
        (dets.take j).any
          (fun e => decide (thr ≤ diou e.box ((dets.getD j dd).box))) := by
    rw [← List.map_take, any_map_proj]
  refine ⟨?_, ?_, ?_, ?_, ?_, ?_⟩
  · unfold nms
    simp only [Bool.false_eq_true, if_false]
    apply sort_drop_length
    rw [segment_nms, segment_nms_go_length, List.length_map]
    rw [sort_drop_length]
    cases use_cl <;> simpa using hk
  · unfold nms
    simp only [Bool.false_eq_true, if_false]
    exact sort_drop_sorted (fun d : Det => d.conf) k _
  · intro c hc hle
    exact mask_cand_below_thresh pre c hle
  · rw [segment_nms, segment_nms_go_length]
  · intro hex
    rw [segment_nms, segment_nms_go_getD diou thr dd dets [] j hj]
    have hcond : ([] ++ (dets.map Det.box).take j).any
        (fun b => decide (thr ≤ diou b ((dets.getD j dd).box))) = true := by
      rw [List.nil_append, hany,
        take_any_iff dets _ j (le_of_lt hj) dd]
      obtain ⟨i, hij, hle⟩ := hex
      exact ⟨i, hij, by simpa using hle⟩
    rw [if_pos hcond]
    simp [scaleCBox]
  · intro hall
    rw [segment_nms, segment_nms_go_getD diou thr dd dets [] j hj]
    have hcond : ((dets.map Det.box).take j).any
        (fun b => decide (thr ≤ diou b ((dets.getD j dd).box))) = false := by
      rw [hany]
      rw [← Bool.not_eq_true]
      rw [take_any_iff dets _ j (le_of_lt hj) dd]
      rintro ⟨i, hij, hle⟩
      have := hall i hij
      simp only [decide_eq_true_eq] at hle
      exact absurd hle (not_le.mpr this)
    rw [if_neg (by simp only [List.nil_append]; rw [hcond]; exact Bool.false_ne_true)]
    have he : ∀ e : Det, (⟨scaleCBox 1 e.box, 1 * e.cls, 1 * e.conf⟩ : Det) = e := by
      intro e
      cases e with
      | mk b c f => cases b; simp [scaleCBox]
    exact he _

/-- C10 witness: the nms specification evaluated with k = 1 on two
candidates and a concrete DIoU stand-in, together with a concrete
two-detection suppression instance. -/
theorem nms_spec_witness :
    (1 ≤ ([⟨⟨0, 0, 1, 1⟩, [1/2, 9/10], 9/10⟩,
      ⟨⟨0, 0, 1, 1⟩, [3/10, 1/10], 3/10⟩] : List Cand).length) ∧
    (1 < ([⟨⟨0, 0, 1, 1⟩, 0, 1⟩, ⟨⟨0, 0, 1, 1⟩, 1, 1/2⟩] : List Det).length) ∧
    ((nms (fun b1 b2 => if b1 = b2 then 1 else 0) 1 (1/5) (1/2) false true
      [⟨⟨0, 0, 1, 1⟩, [1/2, 9/10], 9/10⟩,
       ⟨⟨0, 0, 1, 1⟩, [3/10, 1/10], 3/10⟩]).length = 1 ∧
    List.Sorted (fun a b : Det => b.conf ≤ a.conf)
      (nms (fun b1 b2 => if b1 = b2 then 1 else 0) 1 (1/5) (1/2) false true
      [⟨⟨0, 0, 1, 1⟩, [1/2, 9/10], 9/10⟩,
       ⟨⟨0, 0, 1, 1⟩, [3/10, 1/10], 3/10⟩]) ∧
    (∀ c ∈ ([⟨⟨0, 0, 1, 1⟩, [1/2, 9/10], 9/10⟩,
        ⟨⟨0, 0, 1, 1⟩, [3/10, 1/10], 3/10⟩] : List Cand),
      c.conf ≤ 1/5 → (mask_cand (1/5) c).box = ⟨0, 0, 0, 0⟩ ∧
      (mask_cand (1/5) c).conf = 0 ∧ ∀ x ∈ (mask_cand (1/5) c).cls, x = 0) ∧
    (segment_nms (fun b1 b2 => if b1 = b2 then 1 else 0) (1/2)
      [⟨⟨0, 0, 1, 1⟩, 0, 1⟩, ⟨⟨0, 0, 1, 1⟩, 1, 1/2⟩]).length =
      ([⟨⟨0, 0, 1, 1⟩, 0, 1⟩, ⟨⟨0, 0, 1, 1⟩, 1, 1/2⟩] : List Det).length ∧
    ((∃ i, i < 1 ∧ (1 : ℚ)/2 ≤ (fun b1 b2 : CBox => if b1 = b2 then (1 : ℚ) else 0)
        ((([⟨⟨0, 0, 1, 1⟩, 0, 1⟩, ⟨⟨0, 0, 1, 1⟩, 1, 1/2⟩] : List Det).getD i
          ⟨⟨0, 0, 0, 0⟩, 0, 0⟩).box)
        ((([⟨⟨0, 0, 1, 1⟩, 0, 1⟩, ⟨⟨0, 0, 1, 1⟩, 1, 1/2⟩] : List Det).getD 1
          ⟨⟨0, 0, 0, 0⟩, 0, 0⟩).box)) →
      (segment_nms (fun b1 b2 => if b1 = b2 then 1 else 0) (1/2)
        [⟨⟨0, 0, 1, 1⟩, 0, 1⟩, ⟨⟨0, 0, 1, 1⟩, 1, 1/2⟩]).getD 1
        ⟨⟨0, 0, 0, 0⟩, 0, 0⟩ = ⟨⟨0, 0, 0, 0⟩, 0, 0⟩) ∧
    ((∀ i, i < 1 →
        (fun b1 b2 : CBox => if b1 = b2 then (1 : ℚ) else 0)
        ((([⟨⟨0, 0, 1, 1⟩, 0, 1⟩, ⟨⟨0, 0, 1, 1⟩, 1, 1/2⟩] : List Det).getD i
          ⟨⟨0, 0, 0, 0⟩, 0, 0⟩).box)
        ((([⟨⟨0, 0, 1, 1⟩, 0, 1⟩, ⟨⟨0, 0, 1, 1⟩, 1, 1/2⟩] : List Det).getD 1
          ⟨⟨0, 0, 0, 0⟩, 0, 0⟩).box) < 1/2) →
      (segment_nms (fun b1 b2 => if b1 = b2 then 1 else 0) (1/2)
        [⟨⟨0, 0, 1, 1⟩, 0, 1⟩, ⟨⟨0, 0, 1, 1⟩, 1, 1/2⟩]).getD 1
        ⟨⟨0, 0, 0, 0⟩, 0, 0⟩ =
        ([⟨⟨0, 0, 1, 1⟩, 0, 1⟩, ⟨⟨0, 0, 1, 1⟩, 1, 1/2⟩] : List Det).getD 1
        ⟨⟨0, 0, 0, 0⟩, 0, 0⟩)) :=
  ⟨by decide, by decide,
   nms_spec (fun b1 b2 => if b1 = b2 then 1 else 0) 1 (1/5) (1/2) true
     [⟨⟨0, 0, 1, 1⟩, [1/2, 9/10], 9/10⟩, ⟨⟨0, 0, 1, 1⟩, [3/10, 1/10], 3/10⟩]
     [⟨⟨0, 0, 1, 1⟩, 0, 1⟩, ⟨⟨0, 0, 1, 1⟩, 1, 1/2⟩] 1 ⟨⟨0, 0, 0, 0⟩, 0, 0⟩
     (by decide) (by decide)⟩

end YoloSpec
